import Mathlib

/-!
# Verification of the earthCube terrain/entity engine

A shallow embedding of `earthCube.py`: the deterministic noise pipeline and
biome classifier, the overlay world state, the brush paint operation, the
entity registry with its per-tick update, the spawn pass, and the camera
zoom.  Python floats are modelled by exact rationals, Python dicts by
association lists (entity registry, whose iteration order matters) or by
`(Int × Int) → Option _` maps (terrain overlay, never iterated), and Python
object identity by an explicit `eid` field on entities.
-/

namespace EarthCube

/-- The closed terrain-category enumeration (`TERRAIN_COLORS` keys). -/
inductive Terrain where
  | ocean
  | shallowWater
  | grass
  | sand
  | rock
  | forest
deriving DecidableEq, Repr

/-- The closed entity-type enumeration (`ENTITY_TYPES` keys, in dict order). -/
inductive EntityType where
  | fish
  | deer
  | bush
deriving DecidableEq, Repr

/-- Motion modes of entity types. -/
inductive MoveType where
  | swim
  | walk
  | static
deriving DecidableEq, Repr

open Terrain EntityType

/-- `ENTITY_TYPES[t]['terrains']`. -/
def terrainsOf : EntityType → List Terrain
  | .fish => [.ocean, .shallowWater]
  | .deer => [.forest, .grass]
  | .bush => [.grass, .forest]

/-- `ENTITY_TYPES[t]['move_type']`. -/
def moveTypeOf : EntityType → MoveType
  | .fish => .swim
  | .deer => .walk
  | .bush => .static

-- Terrain generation parameters (module-level constants of the source).
def SEED : Int := 1337
def ELEV_OCTAVES : Nat := 6
def MOIST_OCTAVES : Nat := 4
def RIVER_OCTAVES : Nat := 5
def ELEV_FREQ : ℚ := 1 / 50
def MOIST_FREQ : ℚ := 1 / 20
def RIVER_FREQ : ℚ := 1 / 100
def SEA_LEVEL : ℚ := 45 / 100
def BEACH_WIDTH : ℚ := 3 / 100
def MOUNTAIN_LEVEL : ℚ := 75 / 100
def SHALLOW_WATER_THRESHOLD : ℚ := 18 / 100

def ENTITY_SPAWN_CHANCE : ℚ := 2 / 100
def ENTITY_MAX_PER_TILE : Nat := 3
def ENTITY_SPEED : ℚ := 5 / 100

def TILE_SIZE : ℚ := 32
def MIN_ZOOM : ℚ := 5 / 100
def MAX_ZOOM : ℚ := 1
def UI_HEIGHT : ℚ := 50

/-- `hash01(ix, iy, seed)`: Python's `& 0xFFFFFFFF` on a possibly negative
integer is reduction mod `2^32`; the final `& 0xFFFFFF` keeps 24 bits which
are normalised to a rational in `[0, 1)`. -/
def hash01 (ix iy : Int) (seed : Int) : ℚ :=
  let n1 : Nat := ((ix * 374761393 + iy * 668265263 + seed * 982451653).emod (2 ^ 32)).toNat
  let n2 : Nat := ((n1 ^^^ (n1 >>> 13)) * 1274126177) % 2 ^ 32
  ((n2 % 2 ^ 24 : Nat) : ℚ) / ((2 ^ 24 : Nat) : ℚ)

/-- `fade(t)`: the quintic smoothstep `6t^5 - 15t^4 + 10t^3`. -/
def fade (t : ℚ) : ℚ :=
  t * t * t * (t * (t * 6 - 15) + 10)

/-- `lerp(a, b, t)`. -/
def lerp (a b t : ℚ) : ℚ :=
  a + (b - a) * t

/-- `value_noise(x, y, freq)`: bilinear `fade`-interpolation of `hash01` at
the four lattice corners around `(x*freq, y*freq)`.  All calls use the
default seed `SEED`. -/
def value_noise (x y freq : ℚ) : ℚ :=
  let fx := x * freq
  let fy := y * freq
  let ix : Int := ⌊fx⌋
  let iy : Int := ⌊fy⌋
  let tx := fx - ix
  let ty := fy - iy
  let u := fade tx
  let v := fade ty
  let n00 := hash01 ix iy SEED
  let n10 := hash01 (ix + 1) iy SEED
  let n01 := hash01 ix (iy + 1) SEED
  let n11 := hash01 (ix + 1) (iy + 1) SEED
  let nx0 := lerp n00 n10 u
  let nx1 := lerp n01 n11 u
  lerp nx0 nx1 v

/-- `fbm(x, y, base_freq, octaves, persistence, lacunarity)`: the source's
accumulation loop, followed by the remap of `value/max_ampl` from `[-1,1]`
to `[0,1]` and the explicit clamp.  The fold state is
`(value, amplitude, frequency, max_ampl)`. -/
def fbm (x y base_freq : ℚ) (octaves : Nat) (persistence lacunarity : ℚ) : ℚ :=
  let s := (List.range octaves).foldl
    (fun (acc : ℚ × ℚ × ℚ × ℚ) _ =>
      (acc.1 + (value_noise x y acc.2.2.1 * 2 - 1) * acc.2.1,
       acc.2.1 * persistence, acc.2.2.1 * lacunarity, acc.2.2.2 + acc.2.1))
    (0, 1, base_freq, 0)
  max 0 (min 1 ((s.1 / s.2.2.2 + 1) / 2))

/-- `ridged_fbm(x, y, base_freq, octaves) = (1 - fbm(...))^2` (default
persistence 0.5 and lacunarity 2). -/
def ridged_fbm (x y base_freq : ℚ) (octaves : Nat) : ℚ :=
  let v := fbm x y base_freq octaves (1 / 2) 2
  (1 - v) * (1 - v)

/-- The elevation field of `get_tile_biome` (lines 115-121): base fBm at the
tile center, modulated by the continental factor, clamped to `[0,1]`. -/
def elevationAt (tile_x tile_y : Int) : ℚ :=
  let sx : ℚ := (tile_x : ℚ) + 1 / 2
  let sy : ℚ := (tile_y : ℚ) + 1 / 2
  let elev := fbm sx sy ELEV_FREQ ELEV_OCTAVES (1 / 2) 2
  let continental := value_noise sx sy (ELEV_FREQ * (2 / 10)) * (25 / 100) + 75 / 100
  max 0 (min 1 (elev * continental))

/-- The number of the nine `±3`-offset sample points whose 2-octave fBm
sample is below `SEA_LEVEL` (the `near_sea` accumulation, lines 124-130). -/
def nearSeaCount (sx sy : ℚ) : Nat :=
  (([-1, 0, 1] : List ℚ).flatMap fun ox =>
    ([-1, 0, 1] : List ℚ).map fun oy => (ox, oy)).countP
    (fun p => decide (fbm (sx + p.1 * 3) (sy + p.2 * 3) ELEV_FREQ 2 (1 / 2) 2 < SEA_LEVEL))

/-- The moisture field of `get_tile_biome` (lines 123-132): offset fBm with
persistence 0.65, boosted by the near-sea fraction, clamped to `[0,1]`. -/
def moistureAt (tile_x tile_y : Int) : ℚ :=
  let sx : ℚ := (tile_x : ℚ) + 1 / 2
  let sy : ℚ := (tile_y : ℚ) + 1 / 2
  let moist := fbm (sx + 2000) (sy - 1230) MOIST_FREQ MOIST_OCTAVES (65 / 100) 2
  let near_sea : ℚ := (nearSeaCount sx sy : ℚ) / 9
  max 0 (min 1 (moist * (7 / 10 + 8 / 10 * near_sea)))

/-- The drainage field of `get_tile_biome` (line 134). -/
def drainAt (tile_x tile_y : Int) : ℚ :=
  let sx : ℚ := (tile_x : ℚ) + 1 / 2
  let sy : ℚ := (tile_y : ℚ) + 1 / 2
  ridged_fbm (sx + 6000) (sy - 4000) RIVER_FREQ RIVER_OCTAVES

/-- `get_tile_biome(tile_x, tile_y)`: the classification chain of
lines 136-146 over the three fields.  (The `lru_cache` memoisation is
invisible to a pure function.) -/
def get_tile_biome (tile_x tile_y : Int) : Terrain :=
  let elev := elevationAt tile_x tile_y
  let moist := moistureAt tile_x tile_y
  let drain := drainAt tile_x tile_y
  if elev < SEA_LEVEL then .ocean
  else if drain < SHALLOW_WATER_THRESHOLD ∧
      SEA_LEVEL + 2 / 100 < elev ∧ elev < MOUNTAIN_LEVEL + 5 / 100 then .shallowWater
  else if elev < SEA_LEVEL + BEACH_WIDTH then .sand
  else if elev > MOUNTAIN_LEVEL then .rock
  else if moist > 58 / 100 ∧ elev < MOUNTAIN_LEVEL - 5 / 100 then .forest
  else .grass

/-! ## World state, entities and the registry -/

/-- The terrain overlay (`self.terrain`): a Python dict from tile coordinate
to category, modelled as a map to `Option` (never iterated by the source). -/
def TerrainMap : Type := (Int × Int) → Option Terrain

/-- `self.terrain.get(tile_key, get_tile_biome(...))` — dict lookup with the
classifier as fallback (lines 172-175, 262, 369). -/
def terrainGetOrBiome (tm : TerrainMap) (k : Int × Int) : Terrain :=
  (tm k).getD (get_tile_biome k.1 k.2)

/-- `getOrGenerate` (spec name; the render loop's lines 475-476): if the key
is present return the stored value, otherwise consult the classifier `g`,
pin the result into the overlay, and return it.  The classifier is a
parameter so that "the classifier is not consulted" is expressible as
independence from `g`. -/
def getOrGenerate (g : Int × Int → Terrain) (tm : TerrainMap) (k : Int × Int) :
    Terrain × TerrainMap :=
  match tm k with
  | some t => (t, tm)
  | none => (g k, fun k2 => if k2 = k then some (g k) else tm k2)

/-- An entity (`Entity.__init__` fields that are not derived from the type).
`eid` models Python object identity; it is never read by any source
operation, only threaded through. -/
structure Entity where
  eid : Nat
  ty : EntityType
  x : ℚ
  y : ℚ
  vx : ℚ
  vy : ℚ
deriving DecidableEq, Repr

/-- The tile-indexed entity registry (`self.entities`): a Python dict,
modelled as an association list because `update_entities` iterates it in
insertion order and mutates it during iteration. -/
abbrev EntMap := List ((Int × Int) × List Entity)

/-- Dict lookup `m[k]` / `m.get(k)`. -/
def lookupE : EntMap → (Int × Int) → Option (List Entity)
  | [], _ => none
  | (k2, v) :: t, k => if k2 = k then some v else lookupE t k

/-- Dict store `m[k] = v`: replaces in place if present, else appends a new
entry at the end (Python dict insertion-order semantics). -/
def setE : EntMap → (Int × Int) → List Entity → EntMap
  | [], k, v => [(k, v)]
  | (k2, v2) :: t, k, v => if k2 = k then (k, v) :: t else (k2, v2) :: setE t k v

/-- Dict delete `del m[k]` (first matching entry). -/
def delE : EntMap → (Int × Int) → EntMap
  | [], _ => []
  | (k2, v2) :: t, k => if k2 = k then t else (k2, v2) :: delE t k

/-- Lines 396-398: `if new_key not in entities: entities[new_key] = [];
entities[new_key].append(e)` (also lines 382-384 of spawn). -/
def appendEntity (m : EntMap) (k : Int × Int) (e : Entity) : EntMap :=
  match lookupE m k with
  | some es => setE m k (es ++ [e])
  | none => setE m k [e]

/-- `math.copysign(m, s)` (for rationals; the sign of `0` is positive). -/
def copysign (m s : ℚ) : ℚ :=
  if s < 0 then -|m| else |m|

/-- `Entity.update(self, terrain, tile_x, tile_y)` (lines 161-187):
`none` models `return False` (entity removed), `some e2` the mutated
entity on `return True`. -/
def Entity.update (e : Entity) (terrain : TerrainMap) (tile_x tile_y : Int) :
    Option Entity :=
  if moveTypeOf e.ty = .static then some e
  else
    let x2 := e.x + e.vx / 60
    let y2 := e.y + e.vy / 60
    let new_tile_x : Int := ⌊x2⌋
    let new_tile_y : Int := ⌊y2⌋
    let tile_type := terrainGetOrBiome terrain (new_tile_x, new_tile_y)
    if tile_type ∉ terrainsOf e.ty then none
    else if new_tile_x ≠ tile_x ∨ new_tile_y ≠ tile_y then
      let bx := |x2 - tile_x| > 1 / 2
      let by2 := |y2 - tile_y| > 1 / 2
      some { e with
        x := if bx then tile_x + copysign (49 / 100) (x2 - tile_x) else x2,
        y := if by2 then tile_y + copysign (49 / 100) (y2 - tile_y) else y2,
        vx := if bx then -e.vx else e.vx,
        vy := if by2 then -e.vy else e.vy }
    else
      some { e with x := x2, y := y2 }

/-! ## Painting -/

/-- The brush offsets `range(-brush_size + 1, brush_size)`. -/
def brushOffsets (r : Nat) : List Int :=
  (List.range (2 * r - 1)).map fun (i : Nat) => (i : Int) - ((r : Int) - 1)

/-- The square of tile keys visited by the double loop of `paint_tile`
(lines 259-260), `dx` outer and `dy` inner. -/
def brushKeys (cx cy : Int) (r : Nat) : List (Int × Int) :=
  (brushOffsets r).flatMap fun dx =>
    (brushOffsets r).map fun dy => (cx + dx, cy + dy)

/-- The body of `paint_tile`'s double loop for one tile key (lines 261-272):
store the current tool into the overlay, then purge entities at that key
whose type is not eligible for it, deleting the key when the list empties. -/
def paintOne (p : TerrainMap × EntMap) (k : Int × Int) (cat : Terrain) :
    TerrainMap × EntMap :=
  let tm2 : TerrainMap := fun k2 => if k2 = k then some cat else p.1 k2
  let em2 :=
    match lookupE p.2 k with
    | none => p.2
    | some es =>
      let valid := es.filter fun e => decide (cat ∈ terrainsOf e.ty)
      if valid.isEmpty then delE p.2 k else setE p.2 k valid
  (tm2, em2)

/-- `paint_tile` restricted to its world-state effect (lines 257-272): the
center tile is given directly (the mouse-to-tile conversion of lines
251-258 is camera arithmetic, see `screenToWorld`), `r` is `brush_size`. -/
def paintBrush (tm : TerrainMap) (em : EntMap) (cx cy : Int) (r : Nat)
    (cat : Terrain) : TerrainMap × EntMap :=
  (brushKeys cx cy r).foldl (fun p k => paintOne p k cat) (tm, em)

/-! ## Per-tick entity update -/

/-- One entity of the inner loop of `update_entities` (lines 390-400): the
accumulator is `(valid_entities, registry)`; a surviving entity is kept
for its snapshot key or appended under its new key. -/
def stepEntity (terrain : TerrainMap) (k : Int × Int)
    (p : List Entity × EntMap) (e : Entity) : List Entity × EntMap :=
  match e.update terrain k.1 k.2 with
  | none => p
  | some e2 =>
    let nk : Int × Int := (⌊e2.x⌋, ⌊e2.y⌋)
    if nk = k then (p.1 ++ [e2], p.2) else (p.1, appendEntity p.2 nk e2)

/-- One snapshot key of `update_entities` (lines 387-403): read the current
list at the key, update each entity, then store the kept list back,
deleting the key when it is empty. -/
def processKey (terrain : TerrainMap) (m : EntMap) (k : Int × Int) : EntMap :=
  let es := (lookupE m k).getD []
  let p := es.foldl (stepEntity terrain k) ([], m)
  if p.1.isEmpty then delE p.2 k else setE p.2 k p.1

/-- `update_entities(self)` (lines 386-403): iterate over a snapshot of the
keys (`list(self.entities.keys())`), mutating the registry as it goes. -/
def update_entities (terrain : TerrainMap) (m : EntMap) : EntMap :=
  (m.map Prod.fst).foldl (processKey terrain) m

/-! ## Spawning -/

/-- The mutable state read and written by `spawn_entities`: the loaded-tile
set, the registry, the stream of unit-interval random draws, and the next
object identity. -/
structure SpawnState where
  loaded : (Int × Int) → Bool
  em : EntMap
  rng : List ℚ
  nid : Nat

/-- Pop the next unit-interval draw (models one call into `random`). -/
def draw : List ℚ → ℚ × List ℚ
  | [] => (0, [])
  | r :: t => (r, t)

/-- `random.uniform(a, b)` from a unit draw. -/
def uniformDraw (a b u : ℚ) : ℚ := a + (b - a) * u

/-- `random.choice(l)` from a unit draw: a uniform index. -/
def chooseIdx (u : ℚ) (n : Nat) : Nat := (⌊u * n⌋).toNat % n

/-- The body of `spawn_entities`'s double loop for one tile key
(lines 363-384). -/
def spawnStep (tm : TerrainMap) (s : SpawnState) (k : Int × Int) : SpawnState :=
  if s.loaded k then s
  else
    let loaded2 : (Int × Int) → Bool := fun k2 => if k2 = k then true else s.loaded k2
    let tile_type := terrainGetOrBiome tm k
    let entity_count := ((lookupE s.em k).getD []).length
    if entity_count ≥ ENTITY_MAX_PER_TILE then { s with loaded := loaded2 }
    else
      let (u, rng1) := draw s.rng
      if u < ENTITY_SPAWN_CHANCE then
        let valid := ([.fish, .deer, .bush] : List EntityType).filter
          fun t => decide (tile_type ∈ terrainsOf t)
        if valid.isEmpty then { s with loaded := loaded2, rng := rng1 }
        else
          let (uc, rng2) := draw rng1
          let ety := valid.getD (chooseIdx uc valid.length) .fish
          if moveTypeOf ety = .static then
            let e : Entity := ⟨s.nid, ety, (k.1 : ℚ) + 1 / 2, (k.2 : ℚ) + 1 / 2, 0, 0⟩
            { loaded := loaded2, em := appendEntity s.em k e, rng := rng2,
              nid := s.nid + 1 }
          else
            let (ux, rng3) := draw rng2
            let (uy, rng4) := draw rng3
            let e : Entity := ⟨s.nid, ety, (k.1 : ℚ) + 1 / 2, (k.2 : ℚ) + 1 / 2,
              uniformDraw (-ENTITY_SPEED) ENTITY_SPEED ux,
              uniformDraw (-ENTITY_SPEED) ENTITY_SPEED uy⟩
            { loaded := loaded2, em := appendEntity s.em k e, rng := rng4,
              nid := s.nid + 1 }
      else { s with loaded := loaded2, rng := rng1 }

/-- The keys visited by `spawn_entities`'s double loop (lines 361-364),
`dx` outer and `dy` inner. -/
def spawnKeys (start_x start_y : Int) (tiles_wide tiles_high : Nat) :
    List (Int × Int) :=
  (List.range tiles_wide).flatMap fun (dx : Nat) =>
    (List.range tiles_high).map fun (dy : Nat) =>
      (start_x + (dx : Int), start_y + (dy : Int))

/-- `spawn_entities(self, start_x, start_y, tiles_wide, tiles_high)`
(lines 360-384). -/
def spawn_entities (tm : TerrainMap) (start_x start_y : Int)
    (tiles_wide tiles_high : Nat) (s : SpawnState) : SpawnState :=
  (spawnKeys start_x start_y tiles_wide tiles_high).foldl (spawnStep tm) s

/-! ## Camera -/

/-- The camera state (`camera_x`, `camera_y`, `zoom_factor`). -/
structure Camera where
  camera_x : ℚ
  camera_y : ℚ
  zoom_factor : ℚ
deriving DecidableEq, Repr

/-- The screen-to-world mapping used inline by `paint_tile` (lines 254-256)
and `zoom_at` (lines 275-277): `my` is reduced by the UI band height. -/
def screenToWorld (c : Camera) (mx my : ℚ) : ℚ × ℚ :=
  let tile_size := TILE_SIZE * c.zoom_factor
  (c.camera_x + mx / tile_size, c.camera_y + (my - UI_HEIGHT) / tile_size)

/-- `zoom_at(self, factor_mult, mx, my)` (lines 274-284).  Note the early
`return` on a zero tile size leaves the already-multiplied-and-clamped
zoom in place without recentering. -/
def zoom_at (c : Camera) (factor_mult mx my : ℚ) : Camera :=
  let old_tile_size := TILE_SIZE * c.zoom_factor
  let world_x := c.camera_x + mx / old_tile_size
  let world_y := c.camera_y + (my - UI_HEIGHT) / old_tile_size
  let z2 := max MIN_ZOOM (min MAX_ZOOM (c.zoom_factor * factor_mult))
  let new_tile_size := TILE_SIZE * z2
  if new_tile_size = 0 then { c with zoom_factor := z2 }
  else
    { camera_x := world_x - mx / new_tile_size,
      camera_y := world_y - (my - UI_HEIGHT) / new_tile_size,
      zoom_factor := z2 }

/-! ## Specification-side definitions (for refinement comparisons) -/

/-- The classification precedence exactly as claim C1 words it, as a
function of the three field values. -/
def specClassify (elev moist drain : ℚ) : Terrain :=
  if elev < SEA_LEVEL then .ocean
  else if drain < SHALLOW_WATER_THRESHOLD ∧
      SEA_LEVEL + 2 / 100 < elev ∧ elev < MOUNTAIN_LEVEL + 5 / 100 then .shallowWater
  else if elev < SEA_LEVEL + BEACH_WIDTH then .sand
  else if elev > MOUNTAIN_LEVEL then .rock
  else if moist > 58 / 100 ∧ elev < MOUNTAIN_LEVEL - 5 / 100 then .forest
  else .grass

/-- The moisture value exactly as claim C8 words it: the near-sea fraction
is taken over the nine `±3`-offset sample points "whose **elevation** is
below sea level", i.e. using the elevation field at those tiles. -/
def claimMoistureAt (tile_x tile_y : Int) : ℚ :=
  let sx : ℚ := (tile_x : ℚ) + 1 / 2
  let sy : ℚ := (tile_y : ℚ) + 1 / 2
  let moist := fbm (sx + 2000) (sy - 1230) MOIST_FREQ MOIST_OCTAVES (65 / 100) 2
  let cnt := (([-1, 0, 1] : List Int).flatMap fun ox =>
    ([-1, 0, 1] : List Int).map fun oy => (ox, oy)).countP
    (fun p => decide (elevationAt (tile_x + p.1 * 3) (tile_y + p.2 * 3) < SEA_LEVEL))
  max 0 (min 1 (moist * (7 / 10 + 8 / 10 * ((cnt : ℚ) / 9))))

/-- The moisture value as the amended claim C8 words it: the near-sea test
over the nine sample points uses a 2-octave fBm sample at `ELEV_FREQ`
(persistence 0.5, lacunarity 2, no continental modulation, no clamp), not
the elevation field. -/
def amendedMoistureAt (tile_x tile_y : Int) : ℚ :=
  let sx : ℚ := (tile_x : ℚ) + 1 / 2
  let sy : ℚ := (tile_y : ℚ) + 1 / 2
  let moist := fbm (sx + 2000) (sy - 1230) MOIST_FREQ MOIST_OCTAVES (65 / 100) 2
  let cnt := (([(-1 : ℚ), 0, 1].flatMap fun ox =>
    [(-1 : ℚ), 0, 1].map fun oy => (ox, oy)) : List (ℚ × ℚ)).countP
    (fun p => decide (fbm (sx + p.1 * 3) (sy + p.2 * 3) ELEV_FREQ 2 (1 / 2) 2 < SEA_LEVEL))
  max 0 (min 1 (moist * (7 / 10 + 8 / 10 * ((cnt : ℚ) / 9))))

/-! ## Small arithmetic lemmas about the clamped fields -/

theorem clamp01_nonneg (q : ℚ) : 0 ≤ max 0 (min 1 q) :=
  le_max_left 0 _

theorem clamp01_le_one (q : ℚ) : max 0 (min 1 q) ≤ 1 :=
  max_le zero_le_one (min_le_left 1 q)

theorem fbm_nonneg (x y f : ℚ) (o : Nat) (p l : ℚ) : 0 ≤ fbm x y f o p l := by
  unfold fbm
  exact clamp01_nonneg _

theorem fbm_le_one (x y f : ℚ) (o : Nat) (p l : ℚ) : fbm x y f o p l ≤ 1 := by
  unfold fbm
  exact clamp01_le_one _

theorem elevationAt_nonneg (x y : Int) : 0 ≤ elevationAt x y := by
  unfold elevationAt
  exact clamp01_nonneg _

theorem elevationAt_le_one (x y : Int) : elevationAt x y ≤ 1 := by
  unfold elevationAt
  exact clamp01_le_one _

theorem moistureAt_nonneg (x y : Int) : 0 ≤ moistureAt x y := by
  unfold moistureAt
  exact clamp01_nonneg _

theorem moistureAt_le_one (x y : Int) : moistureAt x y ≤ 1 := by
  unfold moistureAt
  exact clamp01_le_one _

theorem drainAt_nonneg (x y : Int) : 0 ≤ drainAt x y := by
  unfold drainAt ridged_fbm
  exact mul_self_nonneg _

theorem drainAt_le_one (x y : Int) : drainAt x y ≤ 1 := by
  unfold drainAt ridged_fbm
  dsimp only
  have h0 := fbm_nonneg ((x : ℚ) + 1 / 2 + 6000) ((y : ℚ) + 1 / 2 - 4000) RIVER_FREQ
    RIVER_OCTAVES (1 / 2) 2
  have h1 := fbm_le_one ((x : ℚ) + 1 / 2 + 6000) ((y : ℚ) + 1 / 2 - 4000) RIVER_FREQ
    RIVER_OCTAVES (1 / 2) 2
  exact mul_le_one₀ (by linarith) (by linarith) (by linarith)

theorem terrain_mem_enum (t : Terrain) :
    t ∈ [Terrain.ocean, .shallowWater, .sand, .rock, .forest, .grass] := by
  cases t <;> simp

/-! ## C1: classification precedence, closed category set, clamped fields -/

/-- C1: `get_tile_biome` follows exactly the first-match precedence of the
claim over its three fields, always lands in the closed six-element
terrain set, and the elevation/moisture/drainage values feeding the
comparisons all lie within `[0, 1]`. -/
theorem getTileBiome_precedence_and_bounds (x y : Int) :
    get_tile_biome x y = specClassify (elevationAt x y) (moistureAt x y) (drainAt x y)
  ∧ get_tile_biome x y ∈ [Terrain.ocean, .shallowWater, .sand, .rock, .forest, .grass]
  ∧ (0 ≤ elevationAt x y ∧ elevationAt x y ≤ 1)
  ∧ (0 ≤ moistureAt x y ∧ moistureAt x y ≤ 1)
  ∧ (0 ≤ drainAt x y ∧ drainAt x y ≤ 1) :=
  ⟨rfl, terrain_mem_enum _,
    ⟨elevationAt_nonneg x y, elevationAt_le_one x y⟩,
    ⟨moistureAt_nonneg x y, moistureAt_le_one x y⟩,
    ⟨drainAt_nonneg x y, drainAt_le_one x y⟩⟩

/-! ## C7: cursor-anchored zoom -/

/-- C7: for a camera with zoom in bounds, the world point under the cursor
is exactly the same before and after `zoom_at` (exact rational
arithmetic), including when the multiplied zoom is clamped. -/
theorem zoom_at_anchors_cursor (c : Camera) (m px py : ℚ)
    (_h1 : MIN_ZOOM ≤ c.zoom_factor) (_h2 : c.zoom_factor ≤ MAX_ZOOM) :
    screenToWorld (zoom_at c m px py) px py = screenToWorld c px py := by
  have hz2 : (0 : ℚ) < max MIN_ZOOM (min MAX_ZOOM (c.zoom_factor * m)) :=
    lt_of_lt_of_le (by norm_num [MIN_ZOOM]) (le_max_left _ _)
  have hts : TILE_SIZE * max MIN_ZOOM (min MAX_ZOOM (c.zoom_factor * m)) ≠ 0 := by
    have : (0 : ℚ) < TILE_SIZE * max MIN_ZOOM (min MAX_ZOOM (c.zoom_factor * m)) := by
      have h32 : (0 : ℚ) < TILE_SIZE := by norm_num [TILE_SIZE]
      exact mul_pos h32 hz2
    exact ne_of_gt this
  unfold zoom_at screenToWorld
  dsimp only
  rw [if_neg hts]
  dsimp only
  refine Prod.ext ?_ ?_ <;> dsimp only <;> ring

/-- Witness for C7 at a concrete camera, multiplier and cursor. -/
theorem zoom_at_anchors_cursor_witness :
    MIN_ZOOM ≤ (1 : ℚ) ∧ (1 : ℚ) ≤ MAX_ZOOM ∧
    screenToWorld (zoom_at ⟨3, 4, 1⟩ 2 100 60) 100 60 = screenToWorld ⟨3, 4, 1⟩ 100 60 :=
  ⟨by with_unfolding_all decide, by with_unfolding_all decide,
    zoom_at_anchors_cursor ⟨3, 4, 1⟩ 2 100 60 (by with_unfolding_all decide)
      (by with_unfolding_all decide)⟩

/-! ## C8: the moisture formula (corrected) -/

set_option maxRecDepth 40000 in
/-- Counterexample to C8 as stated: at tile `(-21, 0)` the moisture computed
by the code differs from the claim's formula, because the near-sea test
samples a 2-octave fBm, not the elevation field. -/
theorem moisture_claim_counterexample :
    moistureAt (-21) 0 ≠ claimMoistureAt (-21) 0 := by
  with_unfolding_all decide

/-- C8 amended: the moisture equals the offset fBm (persistence 0.65) scaled
by `0.7 + 0.8 * f` and clamped, where `f` is the fraction of the nine
`±3`-offset sample points whose **2-octave fBm sample at `ELEV_FREQ`**
(not the elevation field) is below sea level. -/
theorem moisture_formula_amended (x y : Int) :
    moistureAt x y = amendedMoistureAt x y := by
  rfl

/-! ## Association-list (Python dict) lemmas -/

theorem lookupE_setE_self (m : EntMap) (k : Int × Int) (v : List Entity) :
    lookupE (setE m k v) k = some v := by
  induction m with
  | nil => simp [setE, lookupE]
  | cons p t ih =>
    obtain ⟨k2, v2⟩ := p
    by_cases h : k2 = k
    · simp [setE, h, lookupE]
    · simp [setE, h, lookupE, ih]

theorem lookupE_setE_ne (m : EntMap) (k k2 : Int × Int) (v : List Entity)
    (h : k2 ≠ k) : lookupE (setE m k v) k2 = lookupE m k2 := by
  induction m with
  | nil => simp [setE, lookupE, Ne.symm h]
  | cons p t ih =>
    obtain ⟨k3, v3⟩ := p
    by_cases h3 : k3 = k
    · subst h3
      simp [setE, lookupE, Ne.symm h]
    · simp only [setE, if_neg h3, lookupE]
      by_cases h4 : k3 = k2 <;> simp [h4, ih]

theorem lookupE_delE_ne (m : EntMap) (k k2 : Int × Int) (h : k2 ≠ k) :
    lookupE (delE m k) k2 = lookupE m k2 := by
  induction m with
  | nil => simp [delE]
  | cons p t ih =>
    obtain ⟨k3, v3⟩ := p
    by_cases h3 : k3 = k
    · subst h3
      simp [delE, lookupE, Ne.symm h]
    · simp only [delE, if_neg h3, lookupE]
      by_cases h4 : k3 = k2 <;> simp [h4, ih]

theorem mem_keys_of_lookupE (m : EntMap) (k : Int × Int) (v : List Entity)
    (h : lookupE m k = some v) : k ∈ m.map Prod.fst := by
  induction m with
  | nil => simp [lookupE] at h
  | cons p t ih =>
    obtain ⟨k2, v2⟩ := p
    by_cases h2 : k2 = k
    · simp [h2]
    · simp only [lookupE, if_neg h2] at h
      simp [ih h]

theorem lookupE_eq_none_of_not_mem (m : EntMap) (k : Int × Int)
    (h : k ∉ m.map Prod.fst) : lookupE m k = none := by
  induction m with
  | nil => simp [lookupE]
  | cons p t ih =>
    obtain ⟨k2, v2⟩ := p
    simp only [List.map_cons, List.mem_cons] at h
    push_neg at h
    simp [lookupE, Ne.symm h.1, ih h.2]

theorem keys_delE_sublist (m : EntMap) (k : Int × Int) :
    List.Sublist ((delE m k).map Prod.fst) (m.map Prod.fst) := by
  induction m with
  | nil => simp [delE]
  | cons p t ih =>
    obtain ⟨k2, v2⟩ := p
    by_cases h : k2 = k
    · simp only [delE, if_pos h, List.map_cons]
      exact List.sublist_cons_of_sublist _ (List.Sublist.refl _)
    · simp only [delE, if_neg h, List.map_cons]
      exact List.Sublist.cons₂ _ ih

theorem lookupE_delE_self (m : EntMap) (k : Int × Int)
    (hnd : (m.map Prod.fst).Nodup) : lookupE (delE m k) k = none := by
  induction m with
  | nil => simp [delE, lookupE]
  | cons p t ih =>
    obtain ⟨k2, v2⟩ := p
    simp only [List.map_cons, List.nodup_cons] at hnd
    by_cases h : k2 = k
    · subst h
      simp only [delE, if_pos rfl]
      exact lookupE_eq_none_of_not_mem t k2 hnd.1
    · simp [delE, if_neg h, lookupE, h, ih hnd.2]

theorem mem_keys_setE (m : EntMap) (k k2 : Int × Int) (v : List Entity) :
    k2 ∈ (setE m k v).map Prod.fst ↔ k2 ∈ m.map Prod.fst ∨ k2 = k := by
  induction m with
  | nil => simp [setE, eq_comm]
  | cons p t ih =>
    obtain ⟨k3, v3⟩ := p
    by_cases h : k3 = k
    · subst h
      simp only [setE, eq_self_iff_true, if_true, List.map_cons, List.mem_cons]
      tauto
    · simp only [setE, if_neg h, List.map_cons, List.mem_cons, ih]
      tauto

theorem nodup_keys_setE (m : EntMap) (k : Int × Int) (v : List Entity)
    (hnd : (m.map Prod.fst).Nodup) : ((setE m k v).map Prod.fst).Nodup := by
  induction m with
  | nil => simp [setE]
  | cons p t ih =>
    obtain ⟨k2, v2⟩ := p
    simp only [List.map_cons, List.nodup_cons] at hnd
    by_cases h : k2 = k
    · subst h
      simpa [setE, List.nodup_cons] using hnd
    · simp only [setE, if_neg h, List.map_cons, List.nodup_cons]
      refine ⟨?_, ih hnd.2⟩
      rw [mem_keys_setE]
      rintro (h2 | h2)
      · exact hnd.1 h2
      · exact h h2

theorem nodup_keys_delE (m : EntMap) (k : Int × Int)
    (hnd : (m.map Prod.fst).Nodup) : ((delE m k).map Prod.fst).Nodup :=
  (keys_delE_sublist m k).nodup hnd

theorem lookupE_appendEntity_ne (m : EntMap) (k k2 : Int × Int) (e : Entity)
    (h : k2 ≠ k) : lookupE (appendEntity m k e) k2 = lookupE m k2 := by
  unfold appendEntity
  cases hm : lookupE m k <;> simp [lookupE_setE_ne _ _ _ _ h]

theorem lookupE_appendEntity_self (m : EntMap) (k : Int × Int) (e : Entity) :
    lookupE (appendEntity m k e) k = some ((lookupE m k).getD [] ++ [e]) := by
  unfold appendEntity
  cases hm : lookupE m k <;> simp [lookupE_setE_self]

theorem nodup_keys_appendEntity (m : EntMap) (k : Int × Int) (e : Entity)
    (hnd : (m.map Prod.fst).Nodup) : ((appendEntity m k e).map Prod.fst).Nodup := by
  unfold appendEntity
  cases hm : lookupE m k <;> exact nodup_keys_setE m k _ hnd

theorem mem_setE (m : EntMap) (k : Int × Int) (v : List Entity)
    (p : (Int × Int) × List Entity) (h : p ∈ setE m k v) : p ∈ m ∨ p = (k, v) := by
  induction m with
  | nil =>
    simp only [setE, List.mem_singleton] at h
    exact Or.inr h
  | cons q t ih =>
    obtain ⟨k2, v2⟩ := q
    by_cases h2 : k2 = k
    · subst h2
      simp only [setE, eq_self_iff_true, if_true, List.mem_cons] at h
      rcases h with h | h
      · exact Or.inr h
      · exact Or.inl (List.mem_cons_of_mem _ h)
    · simp only [setE, if_neg h2, List.mem_cons] at h
      rcases h with h | h
      · exact Or.inl (List.mem_cons.mpr (Or.inl h))
      · rcases ih h with h3 | h3
        · exact Or.inl (List.mem_cons_of_mem _ h3)
        · exact Or.inr h3

theorem mem_delE (m : EntMap) (k : Int × Int) (p : (Int × Int) × List Entity)
    (h : p ∈ delE m k) : p ∈ m := by
  induction m with
  | nil => simp [delE] at h
  | cons q t ih =>
    obtain ⟨k2, v2⟩ := q
    by_cases h2 : k2 = k
    · subst h2
      simp only [delE, if_pos rfl] at h
      exact List.mem_cons_of_mem _ h
    · simp only [delE, if_neg h2, List.mem_cons] at h
      rcases h with h | h
      · exact List.mem_cons.mpr (Or.inl h)
      · exact List.mem_cons_of_mem _ (ih h)

theorem lookupE_of_mem (m : EntMap) (p : (Int × Int) × List Entity)
    (hnd : (m.map Prod.fst).Nodup) (h : p ∈ m) : lookupE m p.1 = some p.2 := by
  induction m with
  | nil => simp at h
  | cons q t ih =>
    obtain ⟨k2, v2⟩ := q
    simp only [List.map_cons, List.nodup_cons] at hnd
    rcases List.mem_cons.mp h with h2 | h2
    · subst h2
      simp [lookupE]
    · have hne : k2 ≠ p.1 := by
        intro hk
        exact hnd.1 (hk ▸ (List.mem_map.mpr ⟨p, h2, rfl⟩))
      simp [lookupE, hne, ih hnd.2 h2]

/-! ## Brush geometry -/

theorem mem_brushOffsets (r : Nat) (d : Int) :
    d ∈ brushOffsets r ↔ -((r : Int) - 1) ≤ d ∧ d ≤ (r : Int) - 1 := by
  unfold brushOffsets
  constructor
  · intro hd
    obtain ⟨i, hi, hEq⟩ := List.mem_map.mp hd
    have hlt := List.mem_range.mp hi
    rw [← hEq]
    constructor <;> omega
  · rintro ⟨h1, h2⟩
    have hnn : 0 ≤ d + ((r : Int) - 1) := by omega
    have heq : ((d + ((r : Int) - 1)).toNat : Int) = d + ((r : Int) - 1) :=
      Int.toNat_of_nonneg hnn
    refine List.mem_map.mpr ⟨(d + ((r : Int) - 1)).toNat, List.mem_range.mpr ?_, ?_⟩
    · omega
    · omega

theorem mem_brushKeys (cx cy : Int) (r : Nat) (k : Int × Int) :
    k ∈ brushKeys cx cy r ↔
      (|k.1 - cx| ≤ (r : Int) - 1 ∧ |k.2 - cy| ≤ (r : Int) - 1) := by
  unfold brushKeys
  simp only [List.mem_flatMap, List.mem_map]
  constructor
  · rintro ⟨dx, hdx, dy, hdy, rfl⟩
    rw [mem_brushOffsets] at hdx hdy
    constructor <;> simp only [abs_le] <;> omega
  · rintro ⟨h1, h2⟩
    rw [abs_le] at h1 h2
    refine ⟨k.1 - cx, ?_, k.2 - cy, ?_, ?_⟩
    · rw [mem_brushOffsets]; omega
    · rw [mem_brushOffsets]; omega
    · simp

/-! ## Paint: terrain effect -/

theorem paintFold_terrain (L : List (Int × Int)) (tm : TerrainMap) (em : EntMap)
    (cat : Terrain) (k : Int × Int) :
    (L.foldl (fun p k2 => paintOne p k2 cat) (tm, em)).1 k =
      if k ∈ L then some cat else tm k := by
  induction L generalizing tm em with
  | nil => simp
  | cons h t ih =>
    simp only [List.foldl_cons, List.mem_cons]
    rw [ih]
    by_cases hk : k ∈ t
    · simp [hk]
    · by_cases hh : k = h
      · subst hh
        simp [hk, paintOne]
      · simp [hk, hh, paintOne]

theorem paintBrush_terrain (tm : TerrainMap) (em : EntMap) (cx cy : Int)
    (r : Nat) (cat : Terrain) (k : Int × Int) :
    (paintBrush tm em cx cy r cat).1 k =
      if k ∈ brushKeys cx cy r then some cat else tm k :=
  paintFold_terrain _ tm em cat k

/-! ## C4: brush extents and frame -/

/-- C4: painting with brush radius `r ≥ 1` sets exactly the
`(2r-1) × (2r-1)` square of Chebyshev radius `r - 1` around the center to
the painted category, and leaves the overlay entry of every other
coordinate unchanged. -/
theorem paintBrush_extents (tm : TerrainMap) (em : EntMap) (cx cy : Int)
    (r : Nat) (cat : Terrain) (_hr : 1 ≤ r) (k : Int × Int) :
    (max |k.1 - cx| |k.2 - cy| ≤ (r : Int) - 1 →
      (paintBrush tm em cx cy r cat).1 k = some cat)
  ∧ (¬ max |k.1 - cx| |k.2 - cy| ≤ (r : Int) - 1 →
      (paintBrush tm em cx cy r cat).1 k = tm k) := by
  constructor
  · intro h
    rw [paintBrush_terrain, if_pos]
    rw [mem_brushKeys]
    exact max_le_iff.mp h
  · intro h
    rw [paintBrush_terrain, if_neg]
    rw [mem_brushKeys]
    intro h2
    exact h (max_le_iff.mpr h2)

/-- Witness for C4: a radius-2 brush at the origin paints `(1, 1)` and
leaves `(2, 0)` untouched, on an initially empty overlay. -/
theorem paintBrush_extents_witness :
    (1 ≤ 2)
  ∧ (paintBrush (fun _ => none) [] 0 0 2 .sand).1 (1, 1) = some Terrain.sand
  ∧ (paintBrush (fun _ => none) [] 0 0 2 .sand).1 (2, 0) = none :=
  ⟨by norm_num,
    (paintBrush_extents (fun _ => none) [] 0 0 2 .sand (by norm_num) (1, 1)).1
      (by with_unfolding_all decide),
    (paintBrush_extents (fun _ => none) [] 0 0 2 .sand (by norm_num) (2, 0)).2
      (by with_unfolding_all decide)⟩

/-! ## C2: overlay precedence over the classifier -/

/-- C2: after a radius-1 paint of `c` with `cat`, `getOrGenerate` at `c`
returns `cat` for any classifier; and whenever `c` is already present in
the overlay, `getOrGenerate` returns the stored value and does not consult
the classifier (its result is independent of the classifier). -/
theorem paint_then_get_and_overlay_precedence (tm : TerrainMap) (em : EntMap)
    (c : Int × Int) (cat : Terrain) (g g2 : (Int × Int) → Terrain) :
    (getOrGenerate g (paintBrush tm em c.1 c.2 1 cat).1 c).1 = cat
  ∧ (∀ t, tm c = some t →
      getOrGenerate g tm c = (t, tm) ∧ getOrGenerate g tm c = getOrGenerate g2 tm c) := by
  constructor
  · have hpaint : (paintBrush tm em c.1 c.2 1 cat).1 c = some cat := by
      rw [paintBrush_terrain, if_pos]
      rw [mem_brushKeys]
      simp
    unfold getOrGenerate
    rw [hpaint]
  · intro t ht
    unfold getOrGenerate
    rw [ht]
    exact ⟨rfl, rfl⟩

/-- Witness for C2 with a concrete overlay, painted coordinate and
classifiers. -/
theorem paint_then_get_witness :
    (getOrGenerate (fun _ => .rock)
      (paintBrush (fun _ => some .grass) [] 2 3 1 .ocean).1 (2, 3)).1 = Terrain.ocean
  ∧ ((fun _ => some Terrain.grass) : TerrainMap) (2, 3) = some Terrain.grass
  ∧ getOrGenerate (fun _ => .rock) (fun _ => some .grass) (2, 3) =
      (Terrain.grass, fun _ => some Terrain.grass)
  ∧ getOrGenerate (fun _ => .rock) (fun _ => some .grass) (2, 3) =
      getOrGenerate (fun _ => .sand) (fun _ => some .grass) (2, 3) := by
  refine ⟨(paint_then_get_and_overlay_precedence (fun _ => some .grass) [] (2, 3)
      .ocean (fun _ => .rock) (fun _ => .sand)).1, rfl, ?_, ?_⟩
  · exact ((paint_then_get_and_overlay_precedence (fun _ => some .grass) [] (2, 3)
      .ocean (fun _ => .rock) (fun _ => .sand)).2 .grass rfl).1
  · exact ((paint_then_get_and_overlay_precedence (fun _ => some .grass) [] (2, 3)
      .ocean (fun _ => .rock) (fun _ => .sand)).2 .grass rfl).2

/-! ## C3: boundary bounce (corrected) -/

/-- An all-grass overlay, used for concrete entity scenarios. -/
def allGrass : TerrainMap := fun _ => some .grass

/-- The entity refuting C3 as stated: a deer in tile `(0,0)` at
`(1/2400, 839/1200)` with velocity `(-1/20, 1/20)`. -/
def eCex : Entity := ⟨0, .deer, 1 / 2400, 839 / 1200, -(1 / 20), 1 / 20⟩

set_option maxRecDepth 4000 in
/-- Counterexample to C3 as stated: `eCex`'s tick moves it more than half a
tile-unit from its tile origin (in `y`) while crossing the tile boundary
(in `x`, by a small amount), onto eligible terrain.  The update flips `vy`
(which did not cause the crossing), does not flip `vx` (which did), and
leaves the entity outside the original tile `(0,0)`. -/
theorem bounce_claim_counterexample :
    moveTypeOf eCex.ty ≠ .static
  ∧ 1 / 2 < |eCex.y + eCex.vy / 60 - ((0 : Int) : ℚ)|
  ∧ terrainGetOrBiome allGrass (⌊eCex.x + eCex.vx / 60⌋, ⌊eCex.y + eCex.vy / 60⌋)
      ∈ terrainsOf eCex.ty
  ∧ eCex.update allGrass 0 0 =
      some ⟨0, .deer, -(1 / 2400), 49 / 100, -(1 / 20), -(1 / 20)⟩
  ∧ ⌊(-(1 / 2400) : ℚ)⌋ ≠ (0 : Int)
  ∧ ⌊eCex.x + eCex.vx / 60⌋ ≠ (0 : Int)
  ∧ (-(1 / 20) : ℚ) = eCex.vx
  ∧ ⌊eCex.y + eCex.vy / 60⌋ = (0 : Int)
  ∧ (-(1 / 20) : ℚ) = -eCex.vy := by
  with_unfolding_all decide

/-- C3 amended: when a non-static entity's tick crosses a tile boundary
onto eligible terrain, starting inside its tile with speed bounded by
`ENTITY_SPEED`, the update flips exactly the velocity components whose
post-move offset from the tile origin exceeds half a tile-unit, clamping
those position components to `origin + 0.49` (strictly inside the tile on
that axis); components with offset at most one half keep the moved
position and velocity, even when they caused the crossing. -/
theorem entity_update_bounce (e : Entity) (terrain : TerrainMap) (tile_x tile_y : Int)
    (hns : moveTypeOf e.ty ≠ .static)
    (helig : terrainGetOrBiome terrain (⌊e.x + e.vx / 60⌋, ⌊e.y + e.vy / 60⌋)
      ∈ terrainsOf e.ty)
    (hcross : ⌊e.x + e.vx / 60⌋ ≠ tile_x ∨ ⌊e.y + e.vy / 60⌋ ≠ tile_y)
    (hx0 : ⌊e.x⌋ = tile_x) (hy0 : ⌊e.y⌋ = tile_y)
    (hvx : |e.vx| ≤ ENTITY_SPEED) (hvy : |e.vy| ≤ ENTITY_SPEED) :
    ∃ e2, e.update terrain tile_x tile_y = some e2
      ∧ (e2.vx = if |e.x + e.vx / 60 - tile_x| > 1 / 2 then -e.vx else e.vx)
      ∧ (e2.vy = if |e.y + e.vy / 60 - tile_y| > 1 / 2 then -e.vy else e.vy)
      ∧ (|e.x + e.vx / 60 - tile_x| > 1 / 2 →
          e2.x = (tile_x : ℚ) + 49 / 100 ∧ ⌊e2.x⌋ = tile_x)
      ∧ (¬ |e.x + e.vx / 60 - tile_x| > 1 / 2 → e2.x = e.x + e.vx / 60)
      ∧ (|e.y + e.vy / 60 - tile_y| > 1 / 2 →
          e2.y = (tile_y : ℚ) + 49 / 100 ∧ ⌊e2.y⌋ = tile_y)
      ∧ (¬ |e.y + e.vy / 60 - tile_y| > 1 / 2 → e2.y = e.y + e.vy / 60) := by
  have hxlo : ((tile_x : ℚ)) ≤ e.x := hx0 ▸ Int.floor_le e.x
  have hylo : ((tile_y : ℚ)) ≤ e.y := hy0 ▸ Int.floor_le e.y
  have hvxlo : -(1 / 20 : ℚ) ≤ e.vx := by
    have h := (abs_le.mp hvx).1
    have hsp : ENTITY_SPEED = (1 / 20 : ℚ) := by norm_num [ENTITY_SPEED]
    linarith [hsp ▸ h]
  have hvylo : -(1 / 20 : ℚ) ≤ e.vy := by
    have h := (abs_le.mp hvy).1
    have hsp : ENTITY_SPEED = (1 / 20 : ℚ) := by norm_num [ENTITY_SPEED]
    linarith [hsp ▸ h]
  have hdx : -(1 / 2 : ℚ) < e.x + e.vx / 60 - tile_x := by linarith
  have hdy : -(1 / 2 : ℚ) < e.y + e.vy / 60 - tile_y := by linarith
  have hposx : |e.x + e.vx / 60 - tile_x| > 1 / 2 → (0 : ℚ) < e.x + e.vx / 60 - tile_x := by
    intro hd
    rcases lt_or_ge (e.x + e.vx / 60 - tile_x) 0 with hneg | hge
    · rw [abs_of_neg hneg] at hd
      linarith
    · rw [abs_of_nonneg hge] at hd
      linarith
  have hposy : |e.y + e.vy / 60 - tile_y| > 1 / 2 → (0 : ℚ) < e.y + e.vy / 60 - tile_y := by
    intro hd
    rcases lt_or_ge (e.y + e.vy / 60 - tile_y) 0 with hneg | hge
    · rw [abs_of_neg hneg] at hd
      linarith
    · rw [abs_of_nonneg hge] at hd
      linarith
  have hcs : ∀ d : ℚ, 0 < d → copysign (49 / 100) d = 49 / 100 := by
    intro d hd
    unfold copysign
    rw [if_neg (not_lt.mpr hd.le), abs_of_pos (by norm_num : (0 : ℚ) < 49 / 100)]
  have hfl : ∀ n : Int, ⌊(n : ℚ) + 49 / 100⌋ = n := by
    intro n
    rw [add_comm, Int.floor_add_int, show ⌊(49 / 100 : ℚ)⌋ = 0 from by
      with_unfolding_all decide, zero_add]
  have hupd : e.update terrain tile_x tile_y = some
      { e with
        x := if |e.x + e.vx / 60 - tile_x| > 1 / 2 then
            (tile_x : ℚ) + copysign (49 / 100) (e.x + e.vx / 60 - tile_x)
          else e.x + e.vx / 60,
        y := if |e.y + e.vy / 60 - tile_y| > 1 / 2 then
            (tile_y : ℚ) + copysign (49 / 100) (e.y + e.vy / 60 - tile_y)
          else e.y + e.vy / 60,
        vx := if |e.x + e.vx / 60 - tile_x| > 1 / 2 then -e.vx else e.vx,
        vy := if |e.y + e.vy / 60 - tile_y| > 1 / 2 then -e.vy else e.vy } := by
    unfold Entity.update
    rw [if_neg hns]
    dsimp only
    rw [if_neg (not_not_intro helig), if_pos hcross]
  refine ⟨_, hupd, rfl, rfl, ?_, ?_, ?_, ?_⟩
  · intro hd
    dsimp only
    rw [if_pos hd, hcs _ (hposx hd)]
    exact ⟨rfl, hfl tile_x⟩
  · intro hd
    dsimp only
    rw [if_neg hd]
  · intro hd
    dsimp only
    rw [if_pos hd, hcs _ (hposy hd)]
    exact ⟨rfl, hfl tile_y⟩
  · intro hd
    dsimp only
    rw [if_neg hd]

/-- The entity witnessing the amended C3: a deer about to cross the right
edge of tile `(0,0)` by more than half a tile-unit of offset. -/
def eBounce : Entity := ⟨3, .deer, 9999 / 10000, 1 / 2, 1 / 20, 0⟩

/-- Witness for the amended C3 at `eBounce` on all-grass terrain. -/
theorem entity_update_bounce_witness :
    moveTypeOf eBounce.ty ≠ .static
  ∧ terrainGetOrBiome allGrass (⌊eBounce.x + eBounce.vx / 60⌋, ⌊eBounce.y + eBounce.vy / 60⌋)
      ∈ terrainsOf eBounce.ty
  ∧ (⌊eBounce.x + eBounce.vx / 60⌋ ≠ (0 : Int) ∨ ⌊eBounce.y + eBounce.vy / 60⌋ ≠ (0 : Int))
  ∧ ⌊eBounce.x⌋ = (0 : Int) ∧ ⌊eBounce.y⌋ = (0 : Int)
  ∧ |eBounce.vx| ≤ ENTITY_SPEED ∧ |eBounce.vy| ≤ ENTITY_SPEED
  ∧ (∃ e2, eBounce.update allGrass 0 0 = some e2
      ∧ (e2.vx = if |eBounce.x + eBounce.vx / 60 - (0 : Int)| > 1 / 2 then -eBounce.vx
          else eBounce.vx)
      ∧ (e2.vy = if |eBounce.y + eBounce.vy / 60 - (0 : Int)| > 1 / 2 then -eBounce.vy
          else eBounce.vy)
      ∧ (|eBounce.x + eBounce.vx / 60 - (0 : Int)| > 1 / 2 →
          e2.x = ((0 : Int) : ℚ) + 49 / 100 ∧ ⌊e2.x⌋ = (0 : Int))
      ∧ (¬ |eBounce.x + eBounce.vx / 60 - (0 : Int)| > 1 / 2 →
          e2.x = eBounce.x + eBounce.vx / 60)
      ∧ (|eBounce.y + eBounce.vy / 60 - (0 : Int)| > 1 / 2 →
          e2.y = ((0 : Int) : ℚ) + 49 / 100 ∧ ⌊e2.y⌋ = (0 : Int))
      ∧ (¬ |eBounce.y + eBounce.vy / 60 - (0 : Int)| > 1 / 2 →
          e2.y = eBounce.y + eBounce.vy / 60)) :=
  ⟨by with_unfolding_all decide, by with_unfolding_all decide,
    by with_unfolding_all decide, by with_unfolding_all decide,
    by with_unfolding_all decide, by with_unfolding_all decide,
    by with_unfolding_all decide,
    entity_update_bounce eBounce allGrass 0 0 (by with_unfolding_all decide)
      (by with_unfolding_all decide) (by with_unfolding_all decide)
      (by with_unfolding_all decide) (by with_unfolding_all decide)
      (by with_unfolding_all decide) (by with_unfolding_all decide)⟩

/-! ## C9: spawn idempotence -/

theorem spawnStep_loaded_mono (tm : TerrainMap) (s : SpawnState) (k k2 : Int × Int)
    (h : s.loaded k2 = true) : (spawnStep tm s k).loaded k2 = true := by
  unfold spawnStep
  by_cases hk : s.loaded k
  · rw [if_pos hk]
    exact h
  · rw [if_neg hk]
    dsimp only
    split_ifs <;> simp [h]

theorem spawnStep_loaded_self (tm : TerrainMap) (s : SpawnState) (k : Int × Int) :
    (spawnStep tm s k).loaded k = true := by
  unfold spawnStep
  by_cases hk : s.loaded k
  · rw [if_pos hk]
    exact hk
  · rw [if_neg hk]
    dsimp only
    split_ifs <;> simp

theorem spawnStep_of_loaded (tm : TerrainMap) (s : SpawnState) (k : Int × Int)
    (h : s.loaded k = true) : spawnStep tm s k = s := by
  unfold spawnStep
  rw [if_pos h]

theorem spawnFold_loaded_mono (tm : TerrainMap) (L : List (Int × Int)) (s : SpawnState)
    (k2 : Int × Int) (h : s.loaded k2 = true) :
    ((L.foldl (spawnStep tm) s).loaded k2) = true := by
  induction L generalizing s with
  | nil => exact h
  | cons k0 t ih =>
    simp only [List.foldl_cons]
    exact ih _ (spawnStep_loaded_mono tm s k0 k2 h)

theorem spawnFold_loaded_all (tm : TerrainMap) (L : List (Int × Int)) (s : SpawnState) :
    ∀ k ∈ L, ((L.foldl (spawnStep tm) s).loaded k) = true := by
  induction L generalizing s with
  | nil => intro k hk; simp at hk
  | cons k0 t ih =>
    intro k hk
    simp only [List.foldl_cons]
    rcases List.mem_cons.mp hk with rfl | hk2
    · exact spawnFold_loaded_mono tm t _ k (spawnStep_loaded_self tm s k)
    · exact ih _ k hk2

theorem spawnFold_of_all_loaded (tm : TerrainMap) (L : List (Int × Int)) (s : SpawnState)
    (h : ∀ k ∈ L, s.loaded k = true) : L.foldl (spawnStep tm) s = s := by
  induction L with
  | nil => rfl
  | cons k0 t ih =>
    simp only [List.foldl_cons]
    rw [spawnStep_of_loaded tm s k0 (h k0 (List.mem_cons_self _ _))]
    exact ih fun k hk => h k (List.mem_cons_of_mem _ hk)

/-- C9: running `spawn_entities` a second time over the same coordinate
range is a complete no-op — every coordinate of the range was marked in
the loaded-tile set by the first call, so the second call changes neither
the registry, nor the loaded set, nor the random stream. -/
theorem spawn_entities_idempotent (tm : TerrainMap) (sx sy : Int) (w h : Nat)
    (s : SpawnState) :
    spawn_entities tm sx sy w h (spawn_entities tm sx sy w h s) =
      spawn_entities tm sx sy w h s := by
  unfold spawn_entities
  exact spawnFold_of_all_loaded tm _ _
    (fun k hk => spawnFold_loaded_all tm _ s k hk)

/-! ## Machinery for `update_entities` invariants -/

theorem mem_of_lookupE (m : EntMap) (k : Int × Int) (v : List Entity)
    (h : lookupE m k = some v) : (k, v) ∈ m := by
  induction m with
  | nil => simp [lookupE] at h
  | cons p t ih =>
    obtain ⟨k2, v2⟩ := p
    by_cases h2 : k2 = k
    · subst h2
      simp only [lookupE, eq_self_iff_true, if_true, Option.some.injEq] at h
      subst h
      exact List.mem_cons_self _ _
    · simp only [lookupE, if_neg h2] at h
      exact List.mem_cons_of_mem _ (ih h)

theorem eid_of_update (e e2 : Entity) (t : TerrainMap) (a b : Int)
    (h : e.update t a b = some e2) : e2.eid = e.eid := by
  unfold Entity.update at h
  dsimp only at h
  split_ifs at h
  all_goals first
  | exact Option.noConfusion h
  | (injection h with h5; subst h5; rfl)

/-- The per-key property `R` holds of every entity reachable by lookup. -/
def RegInv (R : (Int × Int) → Entity → Prop) (m : EntMap) : Prop :=
  ∀ k e, e ∈ (lookupE m k).getD [] → R k e

theorem regInv_appendEntity {R : (Int × Int) → Entity → Prop} (m : EntMap)
    (k : Int × Int) (e : Entity) (hm : RegInv R m) (he : R k e) :
    RegInv R (appendEntity m k e) := by
  intro k2 e2 h2
  by_cases hk : k2 = k
  · subst hk
    rw [lookupE_appendEntity_self] at h2
    simp only [Option.getD_some] at h2
    rcases List.mem_append.mp h2 with h3 | h3
    · exact hm k2 e2 h3
    · rw [List.mem_singleton] at h3
      subst h3
      exact he
  · rw [lookupE_appendEntity_ne _ _ _ _ hk] at h2
    exact hm k2 e2 h2

theorem mem_appendEntity (m : EntMap) (k : Int × Int) (e : Entity)
    (p : (Int × Int) × List Entity) (h : p ∈ appendEntity m k e) :
    p ∈ m ∨ (∃ es, lookupE m k = some es ∧ p = (k, es ++ [e])) ∨ p = (k, [e]) := by
  unfold appendEntity at h
  cases hm : lookupE m k with
  | none =>
    rw [hm] at h
    rcases mem_setE _ _ _ _ h with h2 | h2
    · exact Or.inl h2
    · exact Or.inr (Or.inr h2)
  | some es =>
    rw [hm] at h
    rcases mem_setE _ _ _ _ h with h2 | h2
    · exact Or.inl h2
    · exact Or.inr (Or.inl ⟨es, rfl, h2⟩)

theorem nonempty_appendEntity (m : EntMap) (k : Int × Int) (e : Entity)
    (h : ∀ p ∈ m, p.2 ≠ []) : ∀ p ∈ appendEntity m k e, p.2 ≠ [] := by
  intro p hp
  rcases mem_appendEntity m k e p hp with h2 | ⟨es, _, h2⟩ | h2
  · exact h p h2
  · subst h2
    simp
  · subst h2
    simp

/-- Invariant propagation through the inner entity loop of one snapshot
key: `R` holds of the kept entities at the processing key and of every
lookup in the evolving registry, provided `R` is closed under
`Entity.update` re-keyed by the post-update floor. -/
theorem stepFold_inv {R : (Int × Int) → Entity → Prop} (terrain : TerrainMap)
    (k : Int × Int)
    (hstep : ∀ (k2 : Int × Int) (e e2 : Entity), R k2 e →
      e.update terrain k2.1 k2.2 = some e2 → R (⌊e2.x⌋, ⌊e2.y⌋) e2)
    (es : List Entity) (p0 : List Entity × EntMap)
    (hes : ∀ e ∈ es, R k e) (hval : ∀ e ∈ p0.1, R k e)
    (hnd : (p0.2.map Prod.fst).Nodup) (hacc : RegInv R p0.2) :
    (∀ e ∈ (es.foldl (stepEntity terrain k) p0).1, R k e)
    ∧ ((es.foldl (stepEntity terrain k) p0).2.map Prod.fst).Nodup
    ∧ RegInv R (es.foldl (stepEntity terrain k) p0).2 := by
  induction es generalizing p0 with
  | nil => exact ⟨hval, hnd, hacc⟩
  | cons e t ih =>
    simp only [List.foldl_cons]
    have hRe : R k e := hes e (List.mem_cons_self _ _)
    have hes2 : ∀ e2 ∈ t, R k e2 := fun e2 h2 => hes e2 (List.mem_cons_of_mem _ h2)
    cases hu : e.update terrain k.1 k.2 with
    | none =>
      have hstepEq : stepEntity terrain k p0 e = p0 := by
        unfold stepEntity
        rw [hu]
      rw [hstepEq]
      exact ih p0 hes2 hval hnd hacc
    | some e2 =>
      have hR2 : R (⌊e2.x⌋, ⌊e2.y⌋) e2 := hstep k e e2 hRe hu
      by_cases hnk : ((⌊e2.x⌋, ⌊e2.y⌋) : Int × Int) = k
      · have hstepEq : stepEntity terrain k p0 e = (p0.1 ++ [e2], p0.2) := by
          unfold stepEntity
          rw [hu]
          dsimp only
          rw [if_pos hnk]
        rw [hstepEq]
        refine ih _ hes2 ?_ hnd hacc
        intro e3 h3
        rcases List.mem_append.mp h3 with h4 | h4
        · exact hval e3 h4
        · rw [List.mem_singleton] at h4
          subst h4
          exact hnk ▸ hR2
      · have hstepEq : stepEntity terrain k p0 e =
            (p0.1, appendEntity p0.2 (⌊e2.x⌋, ⌊e2.y⌋) e2) := by
          unfold stepEntity
          rw [hu]
          dsimp only
          rw [if_neg hnk]
        rw [hstepEq]
        exact ih _ hes2 hval (nodup_keys_appendEntity _ _ _ hnd)
          (regInv_appendEntity _ _ _ hacc hR2)

/-- The inner entity loop only appends to the registry, so it preserves
"no entry holds an empty list". -/
theorem stepFold_nonempty (terrain : TerrainMap) (k : Int × Int)
    (es : List Entity) (p0 : List Entity × EntMap)
    (h : ∀ p ∈ p0.2, p.2 ≠ []) :
    ∀ p ∈ (es.foldl (stepEntity terrain k) p0).2, p.2 ≠ [] := by
  induction es generalizing p0 with
  | nil => exact h
  | cons e t ih =>
    simp only [List.foldl_cons]
    cases hu : e.update terrain k.1 k.2 with
    | none =>
      have hstepEq : stepEntity terrain k p0 e = p0 := by
        unfold stepEntity
        rw [hu]
      rw [hstepEq]
      exact ih p0 h
    | some e2 =>
      by_cases hnk : ((⌊e2.x⌋, ⌊e2.y⌋) : Int × Int) = k
      · have hstepEq : stepEntity terrain k p0 e = (p0.1 ++ [e2], p0.2) := by
          unfold stepEntity
          rw [hu]
          dsimp only
          rw [if_pos hnk]
        rw [hstepEq]
        exact ih _ h
      · have hstepEq : stepEntity terrain k p0 e =
            (p0.1, appendEntity p0.2 (⌊e2.x⌋, ⌊e2.y⌋) e2) := by
          unfold stepEntity
          rw [hu]
          dsimp only
          rw [if_neg hnk]
        rw [hstepEq]
        exact ih _ (nonempty_appendEntity _ _ _ h)

theorem processKey_inv {R : (Int × Int) → Entity → Prop} (terrain : TerrainMap)
    (hstep : ∀ (k2 : Int × Int) (e e2 : Entity), R k2 e →
      e.update terrain k2.1 k2.2 = some e2 → R (⌊e2.x⌋, ⌊e2.y⌋) e2)
    (m : EntMap) (k : Int × Int)
    (hnd : (m.map Prod.fst).Nodup) (hm : RegInv R m) :
    ((processKey terrain m k).map Prod.fst).Nodup
    ∧ RegInv R (processKey terrain m k) := by
  unfold processKey
  have hes : ∀ e ∈ (lookupE m k).getD [], R k e := fun e he => hm k e he
  obtain ⟨hval, hnd2, hacc⟩ := stepFold_inv terrain k hstep ((lookupE m k).getD [])
    ([], m) hes (by simp) hnd hm
  dsimp only
  split_ifs with hempty
  · refine ⟨nodup_keys_delE _ _ hnd2, ?_⟩
    intro k2 e2 h2
    by_cases hk : k2 = k
    · subst hk
      rw [lookupE_delE_self _ _ hnd2] at h2
      simp at h2
    · rw [lookupE_delE_ne _ _ _ hk] at h2
      exact hacc k2 e2 h2
  · refine ⟨nodup_keys_setE _ _ _ hnd2, ?_⟩
    intro k2 e2 h2
    by_cases hk : k2 = k
    · subst hk
      rw [lookupE_setE_self] at h2
      simp only [Option.getD_some] at h2
      exact hval e2 h2
    · rw [lookupE_setE_ne _ _ _ _ hk] at h2
      exact hacc k2 e2 h2

theorem processKey_nonempty (terrain : TerrainMap) (m : EntMap) (k : Int × Int)
    (h : ∀ p ∈ m, p.2 ≠ []) : ∀ p ∈ processKey terrain m k, p.2 ≠ [] := by
  unfold processKey
  have h2 := stepFold_nonempty terrain k ((lookupE m k).getD []) ([], m) h
  dsimp only
  split_ifs with hempty
  · intro p hp
    exact h2 p (mem_delE _ _ _ hp)
  · intro p hp
    rcases mem_setE _ _ _ _ hp with h3 | h3
    · exact h2 p h3
    · subst h3
      simpa [List.isEmpty_iff] using hempty

theorem updateFold_inv {R : (Int × Int) → Entity → Prop} (terrain : TerrainMap)
    (hstep : ∀ (k2 : Int × Int) (e e2 : Entity), R k2 e →
      e.update terrain k2.1 k2.2 = some e2 → R (⌊e2.x⌋, ⌊e2.y⌋) e2)
    (ks : List (Int × Int)) (m : EntMap)
    (hnd : (m.map Prod.fst).Nodup) (hm : RegInv R m) :
    ((ks.foldl (processKey terrain) m).map Prod.fst).Nodup
    ∧ RegInv R (ks.foldl (processKey terrain) m) := by
  induction ks generalizing m with
  | nil => exact ⟨hnd, hm⟩
  | cons k0 t ih =>
    simp only [List.foldl_cons]
    obtain ⟨hnd2, hm2⟩ := processKey_inv terrain hstep m k0 hnd hm
    exact ih _ hnd2 hm2

theorem updateFold_nonempty (terrain : TerrainMap) (ks : List (Int × Int)) (m : EntMap)
    (h : ∀ p ∈ m, p.2 ≠ []) :
    ∀ p ∈ ks.foldl (processKey terrain) m, p.2 ≠ [] := by
  induction ks generalizing m with
  | nil => exact h
  | cons k0 t ih =>
    simp only [List.foldl_cons]
    exact ih _ (processKey_nonempty terrain m k0 h)

/-- Master soundness lemma for `update_entities`: any per-key property `R`
that holds of every entity of the registry and is preserved by
`Entity.update` (re-keyed at the post-update floor) holds of every entity
of the result; key uniqueness is preserved as well. -/
theorem update_entities_inv {R : (Int × Int) → Entity → Prop} (terrain : TerrainMap)
    (m : EntMap)
    (hstep : ∀ (k2 : Int × Int) (e e2 : Entity), R k2 e →
      e.update terrain k2.1 k2.2 = some e2 → R (⌊e2.x⌋, ⌊e2.y⌋) e2)
    (hnd : (m.map Prod.fst).Nodup) (hm : RegInv R m) :
    ((update_entities terrain m).map Prod.fst).Nodup
    ∧ RegInv R (update_entities terrain m) :=
  updateFold_inv terrain hstep (m.map Prod.fst) m hnd hm

theorem update_entities_nonempty (terrain : TerrainMap) (m : EntMap)
    (h : ∀ p ∈ m, p.2 ≠ []) : ∀ p ∈ update_entities terrain m, p.2 ≠ [] :=
  updateFold_nonempty terrain (m.map Prod.fst) m h

/-! ## C10: registry-key consistency -/

/-- The registry invariant of claim C10: no key maps to an empty entity
list, and every entity is stored under the tile containing its position. -/
def RegistryInv (m : EntMap) : Prop :=
  (∀ p ∈ m, p.2 ≠ []) ∧ ∀ p ∈ m, ∀ e ∈ p.2, ⌊e.x⌋ = p.1.1 ∧ ⌊e.y⌋ = p.1.2

instance (m : EntMap) : Decidable (RegistryInv m) := by
  unfold RegistryInv
  infer_instance

theorem floor_intCast_add_half (n : Int) : ⌊(n : ℚ) + 1 / 2⌋ = n := by
  rw [add_comm, Int.floor_add_int,
    show ⌊(1 / 2 : ℚ)⌋ = 0 from by with_unfolding_all decide, zero_add]

theorem registryInv_appendEntity (m : EntMap) (k : Int × Int) (e : Entity)
    (hinv : RegistryInv m) (hfx : ⌊e.x⌋ = k.1) (hfy : ⌊e.y⌋ = k.2) :
    RegistryInv (appendEntity m k e) := by
  constructor
  · exact nonempty_appendEntity m k e hinv.1
  · intro p hp e2 he2
    rcases mem_appendEntity m k e p hp with h2 | ⟨es, hl, h2⟩ | h2
    · exact hinv.2 p h2 e2 he2
    · subst h2
      rcases List.mem_append.mp he2 with h3 | h3
      · exact hinv.2 (k, es) (mem_of_lookupE _ _ _ hl) e2 h3
      · rw [List.mem_singleton] at h3
        subst h3
        exact ⟨hfx, hfy⟩
    · subst h2
      rw [List.mem_singleton] at he2
      subst he2
      exact ⟨hfx, hfy⟩

theorem spawnStep_registryInv (tm : TerrainMap) (s : SpawnState) (k : Int × Int)
    (h : RegistryInv s.em) : RegistryInv (spawnStep tm s k).em := by
  unfold spawnStep
  by_cases hk : s.loaded k
  · rw [if_pos hk]
    exact h
  · rw [if_neg hk]
    dsimp only
    split_ifs <;>
      first
      | exact h
      | exact registryInv_appendEntity _ _ _ h (floor_intCast_add_half k.1)
          (floor_intCast_add_half k.2)

theorem spawnFold_registryInv (tm : TerrainMap) (L : List (Int × Int)) (s : SpawnState)
    (h : RegistryInv s.em) : RegistryInv ((L.foldl (spawnStep tm) s).em) := by
  induction L generalizing s with
  | nil => exact h
  | cons k0 t ih =>
    simp only [List.foldl_cons]
    exact ih _ (spawnStep_registryInv tm s k0 h)

theorem paintOne_registryInv (p : TerrainMap × EntMap) (k : Int × Int) (cat : Terrain)
    (h : RegistryInv p.2) : RegistryInv (paintOne p k cat).2 := by
  unfold paintOne
  dsimp only
  cases hl : lookupE p.2 k with
  | none => exact h
  | some es =>
    dsimp only
    split_ifs with he
    · exact ⟨fun q hq => h.1 q (mem_delE _ _ _ hq),
        fun q hq e2 he2 => h.2 q (mem_delE _ _ _ hq) e2 he2⟩
    · constructor
      · intro q hq
        rcases mem_setE _ _ _ _ hq with h2 | h2
        · exact h.1 q h2
        · subst h2
          simpa [List.isEmpty_iff] using he
      · intro q hq e2 he2
        rcases mem_setE _ _ _ _ hq with h2 | h2
        · exact h.2 q h2 e2 he2
        · subst h2
          exact h.2 (k, es) (mem_of_lookupE _ _ _ hl) e2 (List.mem_filter.mp he2).1

theorem paintFold_registryInv (L : List (Int × Int)) (cat : Terrain)
    (p : TerrainMap × EntMap) (h : RegistryInv p.2) :
    RegistryInv ((L.foldl (fun p2 k2 => paintOne p2 k2 cat) p).2) := by
  induction L generalizing p with
  | nil => exact h
  | cons k0 t ih =>
    simp only [List.foldl_cons]
    exact ih _ (paintOne_registryInv p k0 cat h)

theorem regInv_of_entries {R : (Int × Int) → Entity → Prop} (m : EntMap)
    (h : ∀ p ∈ m, ∀ e ∈ p.2, R p.1 e) : RegInv R m := by
  intro k e he
  cases hl : lookupE m k with
  | none =>
    rw [hl] at he
    simp at he
  | some es =>
    rw [hl] at he
    simp only [Option.getD_some] at he
    exact h (k, es) (mem_of_lookupE m k es hl) e he

theorem entries_of_regInv {R : (Int × Int) → Entity → Prop} (m : EntMap)
    (hnd : (m.map Prod.fst).Nodup) (h : RegInv R m) :
    ∀ p ∈ m, ∀ e ∈ p.2, R p.1 e := by
  intro p hp e he
  have hl := lookupE_of_mem m p hnd hp
  exact h p.1 e (by rw [hl]; simpa using he)

/-- C10: from a well-formed registry state (unique keys, invariant holding),
each of the three public mutating operations — `spawn_entities`,
`update_entities`, `paint_tile`'s brush loop — re-establishes the
invariant: every stored entity's containing tile is its key, and no key
holds an empty list. -/
theorem registry_key_consistency (tm : TerrainMap) (m : EntMap)
    (hnd : (m.map Prod.fst).Nodup) (hinv : RegistryInv m) :
    (∀ (sx sy : Int) (w h : Nat) (loaded : (Int × Int) → Bool) (rng : List ℚ) (nid : Nat),
        RegistryInv (spawn_entities tm sx sy w h ⟨loaded, m, rng, nid⟩).em)
  ∧ RegistryInv (update_entities tm m)
  ∧ ∀ (cx cy : Int) (r : Nat) (cat : Terrain),
      RegistryInv (paintBrush tm m cx cy r cat).2 := by
  refine ⟨?_, ?_, ?_⟩
  · intro sx sy w h loaded rng nid
    exact spawnFold_registryInv tm _ ⟨loaded, m, rng, nid⟩ hinv
  · have hstep : ∀ (k2 : Int × Int) (e e2 : Entity),
        (fun (k : Int × Int) (e3 : Entity) => ⌊e3.x⌋ = k.1 ∧ ⌊e3.y⌋ = k.2) k2 e →
        e.update tm k2.1 k2.2 = some e2 →
        (fun (k : Int × Int) (e3 : Entity) => ⌊e3.x⌋ = k.1 ∧ ⌊e3.y⌋ = k.2)
          (⌊e2.x⌋, ⌊e2.y⌋) e2 := by
      intro k2 e e2 _ _
      exact ⟨rfl, rfl⟩
    have hreg : RegInv (fun (k : Int × Int) (e3 : Entity) =>
        ⌊e3.x⌋ = k.1 ∧ ⌊e3.y⌋ = k.2) m :=
      regInv_of_entries m hinv.2
    obtain ⟨hnd2, hreg2⟩ := update_entities_inv tm m hstep hnd hreg
    exact ⟨update_entities_nonempty tm m hinv.1, entries_of_regInv _ hnd2 hreg2⟩
  · intro cx cy r cat
    exact paintFold_registryInv _ cat (tm, m) hinv

/-- Witness for C10 at a concrete one-entity registry on all-grass
terrain. -/
theorem registry_key_consistency_witness :
    (([((0, 0), [⟨0, .deer, 1 / 2, 1 / 2, 0, 0⟩])] : EntMap).map Prod.fst).Nodup
  ∧ RegistryInv [((0, 0), [⟨0, .deer, 1 / 2, 1 / 2, 0, 0⟩])]
  ∧ RegistryInv (spawn_entities allGrass 0 0 1 1
      ⟨fun _ => false, [((0, 0), [⟨0, .deer, 1 / 2, 1 / 2, 0, 0⟩])], [], 10⟩).em
  ∧ RegistryInv (update_entities allGrass [((0, 0), [⟨0, .deer, 1 / 2, 1 / 2, 0, 0⟩])])
  ∧ RegistryInv (paintBrush allGrass [((0, 0), [⟨0, .deer, 1 / 2, 1 / 2, 0, 0⟩])]
      0 0 2 .ocean).2 :=
  ⟨by with_unfolding_all decide, by with_unfolding_all decide,
    (registry_key_consistency allGrass _ (by with_unfolding_all decide)
      (by with_unfolding_all decide)).1 0 0 1 1 (fun _ => false) [] 10,
    (registry_key_consistency allGrass _ (by with_unfolding_all decide)
      (by with_unfolding_all decide)).2.1,
    (registry_key_consistency allGrass _ (by with_unfolding_all decide)
      (by with_unfolding_all decide)).2.2 0 0 2 .ocean⟩

/-! ## C5: paint purges ineligible entities, which never return -/

/-- Object identities are unique across the registry (each Python `Entity`
object is stored at most once). -/
def IdUnique (m : EntMap) : Prop :=
  ∀ p1, p1 ∈ m → ∀ p2, p2 ∈ m → ∀ e1, e1 ∈ p1.2 → ∀ e2, e2 ∈ p2.2 →
    e1.eid = e2.eid → p1 = p2 ∧ e1 = e2

instance (m : EntMap) : Decidable (IdUnique m) := by
  unfold IdUnique
  infer_instance

/-- `m2` refines `m1` entrywise: each entry of `m2` keeps its key and holds
a sub-collection of the corresponding entry of `m1`. -/
def entryRefines (m2 m1 : EntMap) : Prop :=
  ∀ p ∈ m2, ∃ q ∈ m1, p.1 = q.1 ∧ ∀ e ∈ p.2, e ∈ q.2

theorem entryRefines_rfl (m : EntMap) : entryRefines m m :=
  fun p hp => ⟨p, hp, rfl, fun _ he => he⟩

theorem entryRefines_trans (m3 m2 m1 : EntMap) (h32 : entryRefines m3 m2)
    (h21 : entryRefines m2 m1) : entryRefines m3 m1 := by
  intro p hp
  obtain ⟨q, hq, hk, hsub⟩ := h32 p hp
  obtain ⟨q2, hq2, hk2, hsub2⟩ := h21 q hq
  exact ⟨q2, hq2, hk.trans hk2, fun e he => hsub2 e (hsub e he)⟩

theorem paintOne_refines (p : TerrainMap × EntMap) (k : Int × Int) (cat : Terrain) :
    entryRefines (paintOne p k cat).2 p.2 := by
  unfold paintOne
  dsimp only
  cases hl : lookupE p.2 k with
  | none => exact entryRefines_rfl _
  | some es =>
    dsimp only
    split_ifs with he
    · intro q hq
      exact ⟨q, mem_delE _ _ _ hq, rfl, fun _ h2 => h2⟩
    · intro q hq
      rcases mem_setE _ _ _ _ hq with h2 | h2
      · exact ⟨q, h2, rfl, fun _ h3 => h3⟩
      · subst h2
        exact ⟨(k, es), mem_of_lookupE _ _ _ hl, rfl,
          fun e2 h2 => (List.mem_filter.mp h2).1⟩

theorem paintFold_refines (L : List (Int × Int)) (cat : Terrain)
    (p : TerrainMap × EntMap) :
    entryRefines ((L.foldl (fun p2 k2 => paintOne p2 k2 cat) p).2) p.2 := by
  induction L generalizing p with
  | nil => exact entryRefines_rfl _
  | cons k0 t ih =>
    simp only [List.foldl_cons]
    exact entryRefines_trans _ _ _ (ih (paintOne p k0 cat)) (paintOne_refines p k0 cat)

theorem paintOne_nodup (p : TerrainMap × EntMap) (k : Int × Int) (cat : Terrain)
    (hnd : (p.2.map Prod.fst).Nodup) : ((paintOne p k cat).2.map Prod.fst).Nodup := by
  unfold paintOne
  dsimp only
  cases hl : lookupE p.2 k with
  | none => exact hnd
  | some es =>
    dsimp only
    split_ifs with he
    · exact nodup_keys_delE _ _ hnd
    · exact nodup_keys_setE _ _ _ hnd

theorem paintOne_em_lookup_ne (p : TerrainMap × EntMap) (k : Int × Int) (cat : Terrain)
    (k2 : Int × Int) (h : k2 ≠ k) :
    lookupE (paintOne p k cat).2 k2 = lookupE p.2 k2 := by
  unfold paintOne
  dsimp only
  cases hl : lookupE p.2 k with
  | none => rfl
  | some es =>
    dsimp only
    split_ifs with he
    · exact lookupE_delE_ne _ _ _ h
    · exact lookupE_setE_ne _ _ _ _ h

theorem paintFold_em_frame (L : List (Int × Int)) (cat : Terrain) (k : Int × Int)
    (hk : k ∉ L) (p : TerrainMap × EntMap) :
    lookupE ((L.foldl (fun p2 k2 => paintOne p2 k2 cat) p).2) k = lookupE p.2 k := by
  induction L generalizing p with
  | nil => rfl
  | cons k0 t ih =>
    simp only [List.foldl_cons]
    have hk0 : k ≠ k0 := fun h => hk (h ▸ List.mem_cons_self _ _)
    have hkt : k ∉ t := fun h => hk (List.mem_cons_of_mem _ h)
    rw [ih hkt, paintOne_em_lookup_ne p k0 cat k hk0]

theorem paintOne_purged (p : TerrainMap × EntMap) (k : Int × Int) (cat : Terrain)
    (hnd : (p.2.map Prod.fst).Nodup) :
    ∀ e ∈ (lookupE (paintOne p k cat).2 k).getD [], cat ∈ terrainsOf e.ty := by
  unfold paintOne
  dsimp only
  cases hl : lookupE p.2 k with
  | none =>
    rw [hl]
    intro e he
    simp at he
  | some es =>
    dsimp only
    split_ifs with he
    · rw [lookupE_delE_self _ _ hnd]
      intro e h2
      simp at h2
    · rw [lookupE_setE_self]
      intro e h2
      simp only [Option.getD_some] at h2
      exact of_decide_eq_true (List.mem_filter.mp h2).2

theorem paintFold_nodup (L : List (Int × Int)) (cat : Terrain)
    (p : TerrainMap × EntMap) (hnd : (p.2.map Prod.fst).Nodup) :
    (((L.foldl (fun p2 k2 => paintOne p2 k2 cat) p).2).map Prod.fst).Nodup := by
  induction L generalizing p with
  | nil => exact hnd
  | cons k0 t ih =>
    simp only [List.foldl_cons]
    exact ih _ (paintOne_nodup p k0 cat hnd)

theorem paintFold_purged (L : List (Int × Int)) (cat : Terrain) (k : Int × Int) :
    ∀ (p : TerrainMap × EntMap), (p.2.map Prod.fst).Nodup → k ∈ L →
    ∀ e ∈ (lookupE ((L.foldl (fun p2 k2 => paintOne p2 k2 cat) p).2) k).getD [],
      cat ∈ terrainsOf e.ty := by
  induction L with
  | nil =>
    intro p _ hk
    simp at hk
  | cons k0 t ih =>
    intro p hnd hk
    simp only [List.foldl_cons]
    by_cases hkt : k ∈ t
    · exact ih _ (paintOne_nodup p k0 cat hnd) hkt
    · have hk0 : k = k0 := by
        rcases List.mem_cons.mp hk with h | h
        · exact h
        · exact absurd h hkt
      subst hk0
      intro e he
      rw [paintFold_em_frame t cat k hkt _] at he
      exact paintOne_purged p k cat hnd e he

/-- C5: painting a brush square immediately purges, at every painted key,
all entities whose type is not eligible for the painted category; and an
entity of ineligible type that was stored at a painted key is absent from
the whole registry after the following `update_entities` tick (no entity
with its object identity remains). -/
theorem paint_purges_ineligible (tm : TerrainMap) (em : EntMap) (cx cy : Int)
    (r : Nat) (cat : Terrain) (hnd : (em.map Prod.fst).Nodup) :
    (∀ k ∈ brushKeys cx cy r,
      ∀ e ∈ (lookupE (paintBrush tm em cx cy r cat).2 k).getD [],
        cat ∈ terrainsOf e.ty)
  ∧ (IdUnique em →
      ∀ k, k ∈ brushKeys cx cy r →
      ∀ e, e ∈ (lookupE em k).getD [] →
      cat ∉ terrainsOf e.ty →
      ∀ k2 e2,
        e2 ∈ (lookupE (update_entities (paintBrush tm em cx cy r cat).1
          (paintBrush tm em cx cy r cat).2) k2).getD [] →
        e2.eid ≠ e.eid) := by
  have hpart1 : ∀ k ∈ brushKeys cx cy r,
      ∀ e ∈ (lookupE (paintBrush tm em cx cy r cat).2 k).getD [],
        cat ∈ terrainsOf e.ty :=
    fun k hk e he => paintFold_purged (brushKeys cx cy r) cat k (tm, em) hnd hk e he
  refine ⟨hpart1, ?_⟩
  intro hid k hk e he hni k2 e2 he2
  cases hle : lookupE em k with
  | none =>
    rw [hle] at he
    simp at he
  | some es =>
    rw [hle] at he
    simp only [Option.getD_some] at he
    have hkes : (k, es) ∈ em := mem_of_lookupE _ _ _ hle
    -- the painted registry contains no entity with `e`'s identity
    have hpainted : RegInv (fun (_ : Int × Int) (e3 : Entity) => e3.eid ≠ e.eid)
        (paintBrush tm em cx cy r cat).2 := by
      intro k3 e3 he3
      intro heq
      cases hl3 : lookupE (paintBrush tm em cx cy r cat).2 k3 with
      | none =>
        rw [hl3] at he3
        simp at he3
      | some l3 =>
        rw [hl3] at he3
        simp only [Option.getD_some] at he3
        have hentry : (k3, l3) ∈ (paintBrush tm em cx cy r cat).2 :=
          mem_of_lookupE _ _ _ hl3
        obtain ⟨q, hq, hk3, hsub⟩ :=
          paintFold_refines (brushKeys cx cy r) cat (tm, em) (k3, l3) hentry
        have he3q : e3 ∈ q.2 := hsub e3 he3
        obtain ⟨hqq, hee⟩ := hid q hq (k, es) hkes e3 he3q e he heq
        -- so e3 = e and the entry q is the one at the painted key k
        have hk3k : k3 = k := by
          have h5 : k3 = q.1 := hk3
          rw [hqq] at h5
          exact h5
        have hmem : e ∈ (lookupE (paintBrush tm em cx cy r cat).2 k).getD [] := by
          rw [← hk3k, hl3]
          simp only [Option.getD_some]
          rw [← hee]
          exact he3
        exact hni (hpart1 k hk e hmem)
    have hndp : (((paintBrush tm em cx cy r cat).2).map Prod.fst).Nodup :=
      paintFold_nodup (brushKeys cx cy r) cat (tm, em) hnd
    have hstep : ∀ (k3 : Int × Int) (e3 e4 : Entity),
        (fun (_ : Int × Int) (e5 : Entity) => e5.eid ≠ e.eid) k3 e3 →
        e3.update (paintBrush tm em cx cy r cat).1 k3.1 k3.2 = some e4 →
        (fun (_ : Int × Int) (e5 : Entity) => e5.eid ≠ e.eid) (⌊e4.x⌋, ⌊e4.y⌋) e4 := by
      intro k3 e3 e4 hne hupd
      rw [eid_of_update e3 e4 _ _ _ hupd]
      exact hne
    obtain ⟨_, hfinal⟩ := update_entities_inv (paintBrush tm em cx cy r cat).1
      (paintBrush tm em cx cy r cat).2 hstep hndp hpainted
    exact hfinal k2 e2 he2

/-- A concrete two-entity registry for the C5 witness: a deer at `(0,0)`
(about to be painted ocean) and a bush at `(9,9)`. -/
def em5 : EntMap :=
  [((0, 0), [⟨5, .deer, 1 / 2, 1 / 2, 0, 0⟩]),
   ((9, 9), [⟨7, .bush, 19 / 2, 19 / 2, 0, 0⟩])]

/-- The C5 witness scenario painted: ocean over `(0,0)` with radius 1. -/
def paintedEm5 : TerrainMap × EntMap := paintBrush allGrass em5 0 0 1 .ocean

/-- Witness for C5: painting ocean over the deer's tile purges it at once,
and after the next tick no entity bearing its identity exists (the
surviving bush keeps its distinct identity). -/
theorem paint_purges_ineligible_witness :
    ((em5.map Prod.fst).Nodup)
  ∧ IdUnique em5
  ∧ (0, 0) ∈ brushKeys 0 0 1
  ∧ (⟨5, .deer, 1 / 2, 1 / 2, 0, 0⟩ : Entity) ∈ (lookupE em5 (0, 0)).getD []
  ∧ Terrain.ocean ∉ terrainsOf EntityType.deer
  ∧ (⟨7, .bush, 19 / 2, 19 / 2, 0, 0⟩ : Entity) ∈
      (lookupE (update_entities paintedEm5.1 paintedEm5.2) (9, 9)).getD []
  ∧ (⟨7, .bush, 19 / 2, 19 / 2, 0, 0⟩ : Entity).eid ≠
      (⟨5, .deer, 1 / 2, 1 / 2, 0, 0⟩ : Entity).eid :=
  ⟨by with_unfolding_all decide, by with_unfolding_all decide,
    by with_unfolding_all decide, by with_unfolding_all decide,
    by with_unfolding_all decide, by with_unfolding_all decide,
    (paint_purges_ineligible allGrass em5 0 0 1 .ocean
        (by with_unfolding_all decide)).2
      (by with_unfolding_all decide) (0, 0) (by with_unfolding_all decide)
      ⟨5, .deer, 1 / 2, 1 / 2, 0, 0⟩ (by with_unfolding_all decide)
      (by with_unfolding_all decide) (9, 9) ⟨7, .bush, 19 / 2, 19 / 2, 0, 0⟩
      (by with_unfolding_all decide)⟩

/-! ## C6: the per-tick update is not exactly-once (double update) -/

/-- A deer in tile `(0,0)` about to cross into `(-1,0)` without bouncing. -/
def eDbl : Entity := ⟨1, .deer, 1 / 2400, 1 / 2, -(1 / 20), 0⟩

/-- A bush already registered at `(-1,0)`, so that the key `(-1,0)` exists
in the snapshot and is processed after `(0,0)`. -/
def eStat : Entity := ⟨2, .bush, -(1 / 2), 1 / 2, 0, 0⟩

/-- The registry exhibiting the double update. -/
def mDbl : EntMap := [((0, 0), [eDbl]), ((-1, 0), [eStat])]

set_option maxRecDepth 8000 in
/-- C6 fails on the code: the deer is moved from key `(0,0)` into key
`(-1,0)` while that key is still pending in the snapshot, so it is updated
a second time in the same `update_entities` call — its position advances by
two velocity increments instead of exactly one. -/
theorem update_entities_double_update :
    update_entities allGrass mDbl =
      [((-1, 0), [eStat,
        ⟨1, .deer, 1 / 2400 + -(1 / 20) / 60 + -(1 / 20) / 60, 1 / 2, -(1 / 20), 0⟩])]
  ∧ (1 / 2400 + -(1 / 20) / 60 + -(1 / 20) / 60 : ℚ) ≠ 1 / 2400 + -(1 / 20) / 60 := by
  with_unfolding_all decide

end EarthCube
